import Mathlib

/-!
# Verification of the yazi core file sorter

Shallow embedding of `core/src/files/sorter.rs` (`FilesSorter` and its
sorting routines) together with proofs of the specified properties.

Modelling conventions:
* A `Url` / `OsStr` identifier is modelled as its list of Unicode
  codepoints (`List Nat`).  Rust compares `OsString`s byte-wise over
  UTF-8; byte-wise lexicographic order over UTF-8 coincides with
  codepoint-wise lexicographic order, and `to_ascii_lowercase` only
  touches single-byte (ASCII) codepoints, so the codepoint model is
  faithful to the byte model.
* Machine integers (`u64` sizes and lengths, timestamps) are `Nat`.
* A fallible timestamp (`std::io::Result<SystemTime>`) is `Option Nat`.
* The `BTreeMap<Url, u64>` size table is modelled as its lookup
  function `List Nat → Option Nat` (only `get` is used by the source).
* `sort_unstable_by` promises only its library contract, captured by
  `UnstableSortSpec`: the result is a permutation, ordered by the
  comparator when the comparator is a total order on the sorted
  elements, and of unspecified order otherwise.  The executable model
  `sortByCmp` is a comparator-driven insertion sort satisfying that
  contract; claims about a determined output are settled against it,
  while claims over unspecified-order cases are settled against the
  contract itself.
-/

set_option maxHeartbeats 1000000

/-- Rust `bool` ordering (`false < true`), as used by `bool::cmp`. -/
def boolCmp : Bool → Bool → Ordering
  | false, false => .eq
  | false, true  => .lt
  | true,  false => .gt
  | true,  true  => .eq

/-- Three-way comparison of naturals, mirroring `Ord::cmp` on integers. -/
def cmpNat (a b : Nat) : Ordering :=
  if a < b then .lt else if a = b then .eq else .gt

/-- Lexicographic comparison of lists driven by an element comparator,
mirroring `Ord::cmp` on sequences. -/
def lexCmpBy (c : α → α → Ordering) : List α → List α → Ordering
  | [], [] => .eq
  | [], _ :: _ => .lt
  | _ :: _, [] => .gt
  | x :: xs, y :: ys => (c x y).then (lexCmpBy c xs ys)

/-- Byte-wise lexicographic order on identifiers (codepoint model). -/
def lexCmpNat (l r : List Nat) : Ordering := lexCmpBy cmpNat l r

/-- The `SortBy` configuration enum from `config::manager`. -/
inductive SortBy where
  | Alphabetical
  | Created
  | Modified
  | Natural
  | Size
deriving DecidableEq, Repr

/-- The metadata snapshot of an entry: the two independently fallible
timestamps and the precomputed directory flag (in the source the flag
is read from the entry metadata via `File::is_dir`). -/
structure Metadata where
  created  : Option Nat
  modified : Option Nat
  is_dir   : Bool
deriving DecidableEq, Repr

/-- One file-system entry, mirroring `core::files::File`:
identifier (`url`), metadata snapshot, own byte length, symlink target
and flag, hidden flag. -/
structure File where
  url       : List Nat
  meta      : Metadata
  length    : Nat
  link_to   : Option (List Nat)
  is_link   : Bool
  is_hidden : Bool
deriving DecidableEq, Repr

/-- `File::is_dir`, reading the precomputed directory flag. -/
def File.is_dir (f : File) : Bool := f.meta.is_dir

/-- The configuration snapshot `FilesSorter` (field `by` is renamed
`by_` because `by` is a Lean keyword). -/
structure FilesSorter where
  by_       : SortBy
  sensitive : Bool
  reverse   : Bool
  dir_first : Bool
deriving DecidableEq, Repr

/-- `to_ascii_lowercase` on one codepoint: ASCII capitals map down,
everything else (every multi-byte codepoint included) is untouched. -/
def asciiLower (c : Nat) : Nat := if 65 ≤ c ∧ c ≤ 90 then c + 32 else c

/-- The Unicode White_Space property (the exact 25-codepoint set tested
by Rust `char::is_whitespace`). -/
def isWhitespaceB (c : Nat) : Bool :=
  c == 32 || (decide (9 ≤ c) && decide (c ≤ 13)) || c == 133 || c == 160 ||
  c == 5760 || (decide (8192 ≤ c) && decide (c ≤ 8202)) || c == 8232 ||
  c == 8233 || c == 8239 || c == 8287 || c == 12288

/-- The Unicode Cc (control) category, as tested by `char::is_control`. -/
def isControlB (c : Nat) : Bool :=
  decide (c ≤ 31) || (decide (127 ≤ c) && decide (c ≤ 159))

/-- The skip predicate passed by `natural_compare` to the natural-order
comparator: whitespace, controls, U+200B..U+200D, U+FEFF. -/
def skipB (c : Nat) : Bool :=
  isWhitespaceB c || isControlB c ||
  (decide (8203 ≤ c) && decide (c ≤ 8205)) || c == 65279

/-- `char::to_digit(10)` succeeds exactly on the ASCII digits. -/
def isDigitB (c : Nat) : Bool := decide (48 ≤ c) && decide (c ≤ 57)

/-- A token of the natural-order comparison: either a maximal run of
decimal digits, recorded as its numeric value and its digit count, or a
single non-digit codepoint. -/
inductive NatTok where
  | num (val : Nat) (len : Nat)
  | ch  (c : Nat)
deriving DecidableEq, Repr

/-- Split a codepoint sequence into natural-order tokens: maximal digit
runs become `num` tokens carrying their numeric magnitude, all other
codepoints become `ch` tokens. -/
def tokenize : List Nat → List NatTok
  | [] => []
  | c :: cs =>
    if isDigitB c then
      match tokenize cs with
      | NatTok.num v len :: rest => NatTok.num ((c - 48) * 10 ^ len + v) (len + 1) :: rest
      | rest => NatTok.num (c - 48) 1 :: rest
    else
      NatTok.ch c :: tokenize cs

/-- Comparison of two natural-order tokens.  Digit runs compare by
numeric magnitude; a digit run against a non-digit codepoint compares
like the run's leading digit against that codepoint — since the ASCII
digits occupy the contiguous block 48..57 and a `ch` token produced by
`tokenize` is never a digit, that comparison only depends on which side
of the digit block the codepoint falls, which is what is written here. -/
def tokCmp : NatTok → NatTok → Ordering
  | NatTok.num v1 _, NatTok.num v2 _ => cmpNat v1 v2
  | NatTok.num _ _,  NatTok.ch c => if c < 48 then .gt else .lt
  | NatTok.ch c, NatTok.num _ _ => if c < 48 then .lt else .gt
  | NatTok.ch c1, NatTok.ch c2 => cmpNat c1 c2

/-- Modelled from the spec: the `natord::compare_iter` call made by
`FilesSorter::natural_compare` (the `natord` crate is not part of this
repository).  Per the spec, characters satisfying the skip predicate
are treated as entirely absent on both sides and do not break numeric
runs, maximal digit runs compare as numeric magnitudes, and other
codepoints compare literally. -/
def natordCompare (l r : List Nat) : Ordering :=
  lexCmpBy tokCmp
    (tokenize (l.filter (fun c => !skipB c)))
    (tokenize (r.filter (fun c => !skipB c)))

/-- Modelled from the spec: the full Unicode lowercase expansion
(`char::to_lowercase`, which may emit several codepoints) used by the
insensitive natural comparison.  It is restricted here to the
single-codepoint ASCII and Latin-1 mappings, which cover every
identifier appearing in this development; all other codepoints map to
themselves. -/
def toLowerFull (c : Nat) : List Nat :=
  if 65 ≤ c ∧ c ≤ 90 then [c + 32]
  else if 192 ≤ c ∧ c ≤ 222 ∧ c ≠ 215 then [c + 32]
  else [c]

/-- Modelled from the spec: the single-codepoint view of the full
Unicode lowercase mapping, used only to state what the spec's
"full Unicode lowercase" alphabetical comparison would compute. -/
def unicodeLower (c : Nat) : Nat :=
  if 65 ≤ c ∧ c ≤ 90 then c + 32
  else if 192 ≤ c ∧ c ≤ 222 ∧ c ≠ 215 then c + 32
  else c

/-- `FilesSorter::natural_compare`: case-sensitive mode feeds the raw
codepoints to the natural comparator, insensitive mode first expands
every codepoint to its full lowercase form. -/
def natural_compare (left right : List Nat) (sensitive : Bool) : Ordering :=
  if sensitive then natordCompare left right
  else natordCompare (left.flatMap toLowerFull) (right.flatMap toLowerFull)

/-- `FilesSorter::promote`: the directories-first tie-break.  With the
option enabled a directory compares less than a non-directory
(`b.is_dir().cmp(&a.is_dir())`); otherwise always `eq`. -/
def FilesSorter.promote (s : FilesSorter) (a b : File) : Ordering :=
  if s.dir_first then boolCmp b.is_dir a.is_dir else .eq

/-- `FilesSorter::cmp`: promotion first; on promotion tie the
mode-specific keys compare, with the reverse flag swapping the sides of
that key comparison only. -/
def FilesSorter.cmp (s : FilesSorter) (c : α → α → Ordering) (a b : α)
    (promote : Ordering) : Ordering :=
  if promote ≠ .eq then promote
  else if s.reverse then c b a else c a b

/-- The comparator closure built inside `sort_naturally`: promotion
first, then the natural comparison of the two pre-materialized string
forms, with `reverse` applied to that outcome only. -/
def FilesSorter.natPairCmp (s : FilesSorter) (a b : File) : Ordering :=
  let promote := s.promote a b
  if promote ≠ Ordering.eq then promote
  else
    let ordering := natural_compare a.url b.url s.sensitive
    if s.reverse then ordering.swap else ordering

/-- The per-mode pairwise comparator of `FilesSorter::sort`, one branch
per `SortBy` arm of the source `match`:
* Alphabetical: identifiers, raw or after ASCII lowercasing;
* Created / Modified: the timestamps when both are obtainable,
  otherwise `eq` immediately (promotion is not consulted);
* Natural: the `sort_naturally` pair comparator;
* Size: size-table value for directories (falling back to own length),
  own length for non-directories. -/
def FilesSorter.pairCmp (s : FilesSorter) (sizes : List Nat → Option Nat)
    (a b : File) : Ordering :=
  match s.by_ with
  | SortBy.Alphabetical =>
      if s.sensitive then s.cmp lexCmpNat a.url b.url (s.promote a b)
      else s.cmp lexCmpNat (a.url.map asciiLower) (b.url.map asciiLower) (s.promote a b)
  | SortBy.Created =>
      match a.meta.created, b.meta.created with
      | some aa, some bb => s.cmp cmpNat aa bb (s.promote a b)
      | _, _ => Ordering.eq
  | SortBy.Modified =>
      match a.meta.modified, b.meta.modified with
      | some aa, some bb => s.cmp cmpNat aa bb (s.promote a b)
      | _, _ => Ordering.eq
  | SortBy.Natural => s.natPairCmp a b
  | SortBy.Size =>
      let aa := if a.is_dir then sizes a.url else none
      let bb := if b.is_dir then sizes b.url else none
      s.cmp cmpNat (aa.getD a.length) (bb.getD b.length) (s.promote a b)

/-- Insert an element into a list, placing it before the first element
the comparator does not rank it strictly greater than. -/
def orderedInsertC (c : α → α → Ordering) (x : α) : List α → List α
  | [] => [x]
  | y :: l => if c x y = Ordering.gt then y :: orderedInsertC c x l else x :: y :: l

/-- Comparator-driven insertion sort, the model of `sort_unstable_by`. -/
def sortByCmp (c : α → α → Ordering) : List α → List α
  | [] => []
  | x :: l => orderedInsertC c x (sortByCmp c l)

/-- A total preorder on the members of a list, phrased on a
comparator: swapping the arguments swaps the outcome, and the induced
less-or-equal relation is transitive, for elements of the list. -/
def TotalOn (c : α → α → Ordering) (l : List α) : Prop :=
  (∀ a ∈ l, ∀ b ∈ l, (c a b).swap = c b a) ∧
  (∀ a ∈ l, ∀ b ∈ l, ∀ d ∈ l, c a b ≠ .gt → c b d ≠ .gt → c a d ≠ .gt)

/-- Modelled from the Rust standard library contract of
`slice::sort_unstable_by` (external to this repository), which is all
the source relies on: the result is always a permutation of the input,
and it is ordered by the comparator whenever the comparator is a total
order on the elements being sorted; otherwise the resulting order is
unspecified, so any permutation is an allowed behavior. -/
def UnstableSortSpec (c : α → α → Ordering) (l out : List α) : Prop :=
  out.Perm l ∧ (TotalOn c l → out.Pairwise (fun a b => c a b ≠ .gt))

/-- An arbitrary entry used as the default of the (always in-bounds,
see the safety theorem) list indexing operations. -/
def defFile : File :=
  { url := [], meta := { created := none, modified := none, is_dir := false },
    length := 0, link_to := none, is_link := false, is_hidden := false }

/-- The transient placeholder built by `sort_naturally`: default
(empty) url, the metadata cloned from the first entry, zero length, no
link data. -/
def mkDummy (m : Metadata) : File :=
  { url := [], meta := m, length := 0, link_to := none, is_link := false,
    is_hidden := false }

/-- The permutation-application loop of `sort_naturally`: for each
index in order, move the entry out of that slot of the working vector
(`mem::replace` leaves the placeholder behind) and push it onto the
result. -/
def takeOut (items : List File) (dummy : File) : List Nat → List File
  | [] => []
  | i :: rest => items.getD i dummy :: takeOut (items.set i dummy) dummy rest

/-- The index permutation built and sorted by `sort_naturally`:
`0..n` sorted by promotion-then-natural comparison of the indexed
entries. -/
def FilesSorter.naturalIndices (s : FilesSorter) (items : List File) : List Nat :=
  sortByCmp
    (fun i j => s.natPairCmp (items.getD i defFile) (items.getD j defFile))
    (List.range items.length)

/-- `FilesSorter::sort_naturally`: sort the index permutation, then
apply it with the placeholder-swap loop. -/
def FilesSorter.sort_naturally (s : FilesSorter) (items : List File) : List File :=
  let indices := s.naturalIndices items
  let dummy := mkDummy (items.getD 0 defFile).meta
  takeOut items dummy indices

/-- `FilesSorter::sort`: `false` and untouched input when empty,
otherwise dispatch on the mode and return `true`. -/
def FilesSorter.sort (s : FilesSorter) (items : List File)
    (sizes : List Nat → Option Nat) : Bool × List File :=
  if items.isEmpty then (false, items)
  else
    match s.by_ with
    | SortBy.Natural => (true, s.sort_naturally items)
    | _ => (true, sortByCmp (s.pairCmp sizes) items)

/-- The resolved Size-mode key as worded by the spec: a directory uses
its size-table value, falling back to its own length; a non-directory
always uses its own length. -/
def specResolvedSize (sizes : List Nat → Option Nat) (f : File) : Nat :=
  if f.is_dir then
    match sizes f.url with
    | some v => v
    | none => f.length
  else f.length

/-- The common shape of the Created and Modified comparator closures:
both timestamps obtainable compares the timestamps under promotion and
reverse, anything else is immediately equal. -/
def timeCmp (s : FilesSorter) (t : File → Option Nat) (a b : File) : Ordering :=
  match t a, t b with
  | some aa, some bb => s.cmp cmpNat aa bb (s.promote a b)
  | _, _ => Ordering.eq

/-- Codepoints of a string literal, for concrete test entries. -/
def strOf (s : String) : List Nat := s.data.map Char.toNat

/-- A convenience constructor for concrete entries. -/
def mkFile (url : List Nat) (dir : Bool) (len : Nat)
    (created modified : Option Nat) : File :=
  { url := url, meta := { created := created, modified := modified, is_dir := dir },
    length := len, link_to := none, is_link := false, is_hidden := false }


/-! ## Ordering basics -/

theorem cmpNat_eq_eq {a b : Nat} : cmpNat a b = .eq ↔ a = b := by
  unfold cmpNat; split_ifs <;> simp_all <;> omega

theorem cmpNat_eq_lt {a b : Nat} : cmpNat a b = .lt ↔ a < b := by
  unfold cmpNat; split_ifs <;> simp_all <;> omega

theorem cmpNat_eq_gt {a b : Nat} : cmpNat a b = .gt ↔ b < a := by
  unfold cmpNat; split_ifs <;> simp_all <;> omega

/-! ## Lawful comparators

A comparator is lawful when swapping its arguments swaps the outcome
and its induced strict order and equivalence compose transitively; such
comparators describe total preorders, for which the insertion sort
below produces a pairwise-ordered output. -/

structure CmpLawful (c : α → α → Ordering) : Prop where
  symm : ∀ a b, (c a b).swap = c b a
  eq_trans : ∀ a b d, c a b = .eq → c b d = .eq → c a d = .eq
  lt_trans : ∀ a b d, c a b = .lt → c b d = .lt → c a d = .lt
  lt_eq : ∀ a b d, c a b = .lt → c b d = .eq → c a d = .lt
  eq_lt : ∀ a b d, c a b = .eq → c b d = .lt → c a d = .lt

theorem CmpLawful.not_gt {c : α → α → Ordering} (h : CmpLawful c) {a b : α}
    (hab : c a b ≠ .gt) : c a b = .lt ∨ c a b = .eq := by
  cases hv : c a b
  · exact Or.inl rfl
  · exact Or.inr rfl
  · exact absurd hv hab

theorem CmpLawful.le_trans {c : α → α → Ordering} (h : CmpLawful c) {a b d : α}
    (hab : c a b ≠ .gt) (hbd : c b d ≠ .gt) : c a d ≠ .gt := by
  rcases h.not_gt hab with h1 | h1 <;> rcases h.not_gt hbd with h2 | h2
  · rw [h.lt_trans a b d h1 h2]; simp
  · rw [h.lt_eq a b d h1 h2]; simp
  · rw [h.eq_lt a b d h1 h2]; simp
  · rw [h.eq_trans a b d h1 h2]; simp

theorem CmpLawful.gt_of_not_le {c : α → α → Ordering} (h : CmpLawful c) {a b : α}
    (hab : c a b = .gt) : c b a ≠ .gt := by
  have := h.symm a b
  rw [hab] at this
  rw [← this]
  simp [Ordering.swap]

theorem cmpLawful_constEq : CmpLawful (fun (_ _ : α) => Ordering.eq) := by
  refine ⟨fun _ _ => rfl, ?_, ?_, ?_, ?_⟩ <;> intro a b d h1 h2 <;> simp_all

theorem cmpLawful_cmpNat : CmpLawful cmpNat := by
  constructor
  · intro a b
    unfold cmpNat
    split_ifs <;> simp [Ordering.swap] <;> omega
  all_goals intro a b d h1 h2
  all_goals simp only [cmpNat_eq_eq, cmpNat_eq_lt] at h1 h2 ⊢
  all_goals omega

theorem cmpLawful_boolCmp : CmpLawful boolCmp := by
  constructor
  · decide
  all_goals decide

theorem CmpLawful.pullback {c : α → α → Ordering} (h : CmpLawful c) (f : β → α) :
    CmpLawful (fun x y => c (f x) (f y)) := by
  constructor
  · intro a b; exact h.symm (f a) (f b)
  · intro a b d h1 h2; exact h.eq_trans _ _ _ h1 h2
  · intro a b d h1 h2; exact h.lt_trans _ _ _ h1 h2
  · intro a b d h1 h2; exact h.lt_eq _ _ _ h1 h2
  · intro a b d h1 h2; exact h.eq_lt _ _ _ h1 h2

theorem CmpLawful.flip {c : α → α → Ordering} (h : CmpLawful c) :
    CmpLawful (fun x y => c y x) := by
  constructor
  · intro a b; exact h.symm b a
  · intro a b d h1 h2; exact h.eq_trans _ _ _ h2 h1
  · intro a b d h1 h2; exact h.lt_trans _ _ _ h2 h1
  · intro a b d h1 h2; exact h.eq_lt _ _ _ h2 h1
  · intro a b d h1 h2; exact h.lt_eq _ _ _ h2 h1

theorem CmpLawful.swapComp {c : α → α → Ordering} (h : CmpLawful c) :
    CmpLawful (fun x y => (c x y).swap) := by
  have he : (fun x y => (c x y).swap) = fun x y => c y x := by
    funext x y; exact h.symm x y
  rw [he]; exact h.flip

theorem CmpLawful.thenC {c1 c2 : α → α → Ordering} (h1 : CmpLawful c1)
    (h2 : CmpLawful c2) : CmpLawful (fun x y => (c1 x y).then (c2 x y)) := by
  constructor
  · intro a b
    rw [Ordering.swap_then, h1.symm, h2.symm]
  · intro a b d hab hbd
    rw [Ordering.then_eq_eq] at hab hbd ⊢
    exact ⟨h1.eq_trans _ _ _ hab.1 hbd.1, h2.eq_trans _ _ _ hab.2 hbd.2⟩
  · intro a b d hab hbd
    rw [Ordering.then_eq_lt] at hab hbd ⊢
    rcases hab with hab | hab <;> rcases hbd with hbd | hbd
    · exact Or.inl (h1.lt_trans _ _ _ hab hbd)
    · exact Or.inl (h1.lt_eq _ _ _ hab hbd.1)
    · exact Or.inl (h1.eq_lt _ _ _ hab.1 hbd)
    · exact Or.inr ⟨h1.eq_trans _ _ _ hab.1 hbd.1, h2.lt_trans _ _ _ hab.2 hbd.2⟩
  · intro a b d hab hbd
    rw [Ordering.then_eq_lt] at hab ⊢
    rw [Ordering.then_eq_eq] at hbd
    rcases hab with hab | hab
    · exact Or.inl (h1.lt_eq _ _ _ hab hbd.1)
    · exact Or.inr ⟨h1.eq_trans _ _ _ hab.1 hbd.1, h2.lt_eq _ _ _ hab.2 hbd.2⟩
  · intro a b d hab hbd
    rw [Ordering.then_eq_lt] at hbd ⊢
    rw [Ordering.then_eq_eq] at hab
    rcases hbd with hbd | hbd
    · exact Or.inl (h1.eq_lt _ _ _ hab.1 hbd)
    · exact Or.inr ⟨h1.eq_trans _ _ _ hab.1 hbd.1, h2.eq_lt _ _ _ hab.2 hbd.2⟩

theorem cmpLawful_lexCmpBy {c : α → α → Ordering} (h : CmpLawful c) :
    CmpLawful (lexCmpBy c) := by
  constructor
  · intro l
    induction l with
    | nil => intro r; cases r <;> rfl
    | cons x xs ih =>
      intro r
      cases r with
      | nil => rfl
      | cons y ys =>
        show ((c x y).then (lexCmpBy c xs ys)).swap = (c y x).then (lexCmpBy c ys xs)
        rw [Ordering.swap_then, h.symm, ih]
  · intro l
    induction l with
    | nil =>
      intro m r h1 h2
      cases m <;> cases r <;> simp_all [lexCmpBy]
    | cons x xs ih =>
      intro m r h1 h2
      cases m with
      | nil => simp [lexCmpBy] at h1
      | cons y ys =>
        cases r with
        | nil => simp [lexCmpBy] at h2
        | cons z zs =>
          show (c x z).then (lexCmpBy c xs zs) = .eq
          rw [Ordering.then_eq_eq]
          rw [show lexCmpBy c (x :: xs) (y :: ys) = (c x y).then (lexCmpBy c xs ys) from rfl,
            Ordering.then_eq_eq] at h1
          rw [show lexCmpBy c (y :: ys) (z :: zs) = (c y z).then (lexCmpBy c ys zs) from rfl,
            Ordering.then_eq_eq] at h2
          exact ⟨h.eq_trans _ _ _ h1.1 h2.1, ih ys zs h1.2 h2.2⟩
  · intro l
    induction l with
    | nil =>
      intro m r h1 h2
      cases m with
      | nil => simp [lexCmpBy] at h1
      | cons y ys =>
        cases r with
        | nil => simp [lexCmpBy] at h2
        | cons z zs => rfl
    | cons x xs ih =>
      intro m r h1 h2
      cases m with
      | nil => simp [lexCmpBy] at h1
      | cons y ys =>
        cases r with
        | nil => simp [lexCmpBy] at h2
        | cons z zs =>
          show (c x z).then (lexCmpBy c xs zs) = .lt
          rw [Ordering.then_eq_lt]
          rw [show lexCmpBy c (x :: xs) (y :: ys) = (c x y).then (lexCmpBy c xs ys) from rfl,
            Ordering.then_eq_lt] at h1
          rw [show lexCmpBy c (y :: ys) (z :: zs) = (c y z).then (lexCmpBy c ys zs) from rfl,
            Ordering.then_eq_lt] at h2
          rcases h1 with h1 | h1 <;> rcases h2 with h2 | h2
          · exact Or.inl (h.lt_trans _ _ _ h1 h2)
          · exact Or.inl (h.lt_eq _ _ _ h1 h2.1)
          · exact Or.inl (h.eq_lt _ _ _ h1.1 h2)
          · exact Or.inr ⟨h.eq_trans _ _ _ h1.1 h2.1, ih ys zs h1.2 h2.2⟩
  · intro l
    induction l with
    | nil =>
      intro m r h1 h2
      cases m with
      | nil => simp [lexCmpBy] at h1
      | cons y ys =>
        cases r with
        | nil => simp [lexCmpBy] at h2
        | cons z zs => rfl
    | cons x xs ih =>
      intro m r h1 h2
      cases m with
      | nil => simp [lexCmpBy] at h1
      | cons y ys =>
        cases r with
        | nil => simp [lexCmpBy] at h2
        | cons z zs =>
          show (c x z).then (lexCmpBy c xs zs) = .lt
          rw [Ordering.then_eq_lt]
          rw [show lexCmpBy c (x :: xs) (y :: ys) = (c x y).then (lexCmpBy c xs ys) from rfl,
            Ordering.then_eq_lt] at h1
          rw [show lexCmpBy c (y :: ys) (z :: zs) = (c y z).then (lexCmpBy c ys zs) from rfl,
            Ordering.then_eq_eq] at h2
          rcases h1 with h1 | h1
          · exact Or.inl (h.lt_eq _ _ _ h1 h2.1)
          · exact Or.inr ⟨h.eq_trans _ _ _ h1.1 h2.1, ih ys zs h1.2 h2.2⟩
  · intro l
    induction l with
    | nil =>
      intro m r h1 h2
      cases m with
      | nil => exact h2
      | cons y ys => simp [lexCmpBy] at h1
    | cons x xs ih =>
      intro m r h1 h2
      cases m with
      | nil => simp [lexCmpBy] at h1
      | cons y ys =>
        cases r with
        | nil => simp [lexCmpBy] at h2
        | cons z zs =>
          show (c x z).then (lexCmpBy c xs zs) = .lt
          rw [Ordering.then_eq_lt]
          rw [show lexCmpBy c (x :: xs) (y :: ys) = (c x y).then (lexCmpBy c xs ys) from rfl,
            Ordering.then_eq_eq] at h1
          rw [show lexCmpBy c (y :: ys) (z :: zs) = (c y z).then (lexCmpBy c ys zs) from rfl,
            Ordering.then_eq_lt] at h2
          rcases h2 with h2 | h2
          · exact Or.inl (h.eq_lt _ _ _ h1.1 h2)
          · exact Or.inr ⟨h.eq_trans _ _ _ h1.1 h2.1, ih ys zs h1.2 h2.2⟩

theorem cmpLawful_tokCmp : CmpLawful tokCmp := by
  constructor
  · intro a b
    rcases a with ⟨v1, l1⟩ | c1 <;> rcases b with ⟨v2, l2⟩ | c2 <;>
      simp only [tokCmp] <;> first
      | exact cmpLawful_cmpNat.symm _ _
      | (split_ifs <;> rfl)
  all_goals (
    intro a b d h1 h2
    rcases a with ⟨v1, l1⟩ | c1 <;> rcases b with ⟨v2, l2⟩ | c2 <;>
      rcases d with ⟨v3, l3⟩ | c3 <;>
      simp only [tokCmp] at h1 h2 ⊢ <;>
      (try split_ifs at h1 h2 ⊢) <;>
      simp only [cmpNat_eq_eq, cmpNat_eq_lt] at * <;> omega)

/-! ## Lawfulness of the mode comparators -/

theorem FilesSorter.cmp_eq_then (s : FilesSorter) (c : α → α → Ordering) (a b : α)
    (p : Ordering) :
    s.cmp c a b p = p.then (if s.reverse then c b a else c a b) := by
  unfold FilesSorter.cmp
  cases p <;> simp [Ordering.then]

theorem FilesSorter.promote_swap (s : FilesSorter) (a b : File) :
    (s.promote a b).swap = s.promote b a := by
  unfold FilesSorter.promote
  cases hd : s.dir_first
  · rfl
  · exact cmpLawful_boolCmp.symm _ _

theorem FilesSorter.cmp_swap (s : FilesSorter) (c : α → α → Ordering)
    (hc : ∀ x y, (c x y).swap = c y x) (x y : α) (p : Ordering) :
    (s.cmp c x y p).swap = s.cmp c y x p.swap := by
  rw [s.cmp_eq_then, s.cmp_eq_then, Ordering.swap_then]
  congr 1
  cases s.reverse <;> simp [hc]

theorem cmpLawful_promote (s : FilesSorter) :
    CmpLawful (fun a b : File => s.promote a b) := by
  unfold FilesSorter.promote
  cases hd : s.dir_first
  · simp only [Bool.false_eq_true, if_false]
    exact cmpLawful_constEq
  · simp only [if_true]
    exact (cmpLawful_boolCmp.pullback File.is_dir).flip

theorem cmpLawful_keyCmp (s : FilesSorter) (k : File → α) (c : α → α → Ordering)
    (hc : CmpLawful c) :
    CmpLawful (fun a b => s.cmp c (k a) (k b) (s.promote a b)) := by
  have he : (fun a b => s.cmp c (k a) (k b) (s.promote a b)) =
      fun a b => (s.promote a b).then
        (if s.reverse then c (k b) (k a) else c (k a) (k b)) := by
    funext a b; rw [s.cmp_eq_then]
  rw [he]
  cases hr : s.reverse
  · simp only [Bool.false_eq_true, if_false]
    exact (cmpLawful_promote s).thenC (hc.pullback k)
  · simp only [if_true]
    exact (cmpLawful_promote s).thenC ((hc.pullback k).flip)

theorem cmpLawful_lexCmpNat : CmpLawful lexCmpNat :=
  cmpLawful_lexCmpBy cmpLawful_cmpNat

theorem cmpLawful_natural (sens : Bool) :
    CmpLawful (fun l r => natural_compare l r sens) := by
  cases sens
  · have he : (fun l r => natural_compare l r false) = fun l r =>
        lexCmpBy tokCmp
          (tokenize (((l.flatMap toLowerFull).filter (fun c => !skipB c))))
          (tokenize (((r.flatMap toLowerFull).filter (fun c => !skipB c)))) := rfl
    rw [he]
    exact (cmpLawful_lexCmpBy cmpLawful_tokCmp).pullback _
  · have he : (fun l r => natural_compare l r true) = fun l r =>
        lexCmpBy tokCmp
          (tokenize ((l.filter (fun c => !skipB c))))
          (tokenize ((r.filter (fun c => !skipB c)))) := rfl
    rw [he]
    exact (cmpLawful_lexCmpBy cmpLawful_tokCmp).pullback _

theorem FilesSorter.natPairCmp_eq_then (s : FilesSorter) (a b : File) :
    s.natPairCmp a b = (s.promote a b).then
      (if s.reverse then (natural_compare a.url b.url s.sensitive).swap
       else natural_compare a.url b.url s.sensitive) := by
  unfold FilesSorter.natPairCmp
  cases hp : s.promote a b <;> simp [hp, Ordering.then]

theorem cmpLawful_natPairCmp (s : FilesSorter) :
    CmpLawful (fun a b => s.natPairCmp a b) := by
  have he : (fun a b : File => s.natPairCmp a b) =
      fun a b => (s.promote a b).then
        (if s.reverse then (natural_compare a.url b.url s.sensitive).swap
         else natural_compare a.url b.url s.sensitive) := by
    funext a b; rw [s.natPairCmp_eq_then]
  rw [he]
  cases hr : s.reverse
  · simp only [Bool.false_eq_true, if_false]
    exact (cmpLawful_promote s).thenC ((cmpLawful_natural s.sensitive).pullback File.url)
  · simp only [if_true]
    exact (cmpLawful_promote s).thenC
      (((cmpLawful_natural s.sensitive).pullback File.url).swapComp)

theorem pairCmp_alpha_sensitive (s : FilesSorter) (sizes : List Nat → Option Nat)
    (h : s.by_ = SortBy.Alphabetical) (hs : s.sensitive = true) :
    s.pairCmp sizes = fun a b => s.cmp lexCmpNat a.url b.url (s.promote a b) := by
  funext a b
  simp [FilesSorter.pairCmp, h, hs]

theorem pairCmp_alpha_insensitive (s : FilesSorter) (sizes : List Nat → Option Nat)
    (h : s.by_ = SortBy.Alphabetical) (hs : s.sensitive = false) :
    s.pairCmp sizes = fun a b =>
      s.cmp lexCmpNat (a.url.map asciiLower) (b.url.map asciiLower) (s.promote a b) := by
  funext a b
  simp [FilesSorter.pairCmp, h, hs]

theorem pairCmp_size (s : FilesSorter) (sizes : List Nat → Option Nat)
    (h : s.by_ = SortBy.Size) :
    s.pairCmp sizes = fun a b =>
      s.cmp cmpNat ((if a.is_dir then sizes a.url else none).getD a.length)
        ((if b.is_dir then sizes b.url else none).getD b.length) (s.promote a b) := by
  funext a b
  simp [FilesSorter.pairCmp, h]

theorem pairCmp_natural (s : FilesSorter) (sizes : List Nat → Option Nat)
    (h : s.by_ = SortBy.Natural) :
    s.pairCmp sizes = fun a b => s.natPairCmp a b := by
  funext a b
  simp [FilesSorter.pairCmp, h]

theorem cmpLawful_pairCmp_of (s : FilesSorter) (sizes : List Nat → Option Nat)
    (h : s.by_ = SortBy.Alphabetical ∨ s.by_ = SortBy.Natural ∨ s.by_ = SortBy.Size) :
    CmpLawful (s.pairCmp sizes) := by
  rcases h with h | h | h
  · cases hs : s.sensitive
    · rw [pairCmp_alpha_insensitive s sizes h hs]
      exact cmpLawful_keyCmp s (fun f => f.url.map asciiLower) lexCmpNat cmpLawful_lexCmpNat
    · rw [pairCmp_alpha_sensitive s sizes h hs]
      exact cmpLawful_keyCmp s File.url lexCmpNat cmpLawful_lexCmpNat
  · rw [pairCmp_natural s sizes h]
    exact cmpLawful_natPairCmp s
  · rw [pairCmp_size s sizes h]
    exact cmpLawful_keyCmp s
      (fun f => (if f.is_dir then sizes f.url else none).getD f.length) cmpNat cmpLawful_cmpNat

/-! ## The timestamp comparators -/

theorem pairCmp_created (s : FilesSorter) (sizes : List Nat → Option Nat)
    (h : s.by_ = SortBy.Created) :
    s.pairCmp sizes = timeCmp s (fun f => f.meta.created) := by
  funext a b
  simp only [FilesSorter.pairCmp, h]
  rfl

theorem pairCmp_modified (s : FilesSorter) (sizes : List Nat → Option Nat)
    (h : s.by_ = SortBy.Modified) :
    s.pairCmp sizes = timeCmp s (fun f => f.meta.modified) := by
  funext a b
  simp only [FilesSorter.pairCmp, h]
  rfl

theorem timeCmp_symm (s : FilesSorter) (t : File → Option Nat) (a b : File) :
    (timeCmp s t a b).swap = timeCmp s t b a := by
  unfold timeCmp
  cases ha : t a <;> cases hb : t b
  · rfl
  · rfl
  · rfl
  · exact (s.cmp_swap cmpNat (fun x y => cmpLawful_cmpNat.symm x y) _ _ _).trans
      (by rw [s.promote_swap])

theorem timeCmp_eq_of_none_left (s : FilesSorter) (t : File → Option Nat) (a b : File)
    (h : t a = none) : timeCmp s t a b = .eq := by
  unfold timeCmp; rw [h]

theorem timeCmp_eq_of_none_right (s : FilesSorter) (t : File → Option Nat) (a b : File)
    (h : t b = none) : timeCmp s t a b = .eq := by
  unfold timeCmp; rw [h]; cases t a <;> rfl

theorem timeCmp_eq_keyCmp_of_some (s : FilesSorter) (t : File → Option Nat) (a b : File)
    (ha : (t a).isSome) (hb : (t b).isSome) :
    timeCmp s t a b = s.cmp cmpNat ((t a).getD 0) ((t b).getD 0) (s.promote a b) := by
  unfold timeCmp
  rcases Option.isSome_iff_exists.mp ha with ⟨aa, ha'⟩
  rcases Option.isSome_iff_exists.mp hb with ⟨bb, hb'⟩
  rw [ha', hb']
  rfl

theorem timeCmp_le_trans_of_some (s : FilesSorter) (t : File → Option Nat)
    (a b d : File) (ha : (t a).isSome) (hb : (t b).isSome) (hd : (t d).isSome)
    (h1 : timeCmp s t a b ≠ .gt) (h2 : timeCmp s t b d ≠ .gt) :
    timeCmp s t a d ≠ .gt := by
  rw [timeCmp_eq_keyCmp_of_some s t a b ha hb] at h1
  rw [timeCmp_eq_keyCmp_of_some s t b d hb hd] at h2
  rw [timeCmp_eq_keyCmp_of_some s t a d ha hd]
  exact (cmpLawful_keyCmp s (fun f => (t f).getD 0) cmpNat cmpLawful_cmpNat).le_trans h1 h2

theorem cmp_gt_of_promote_gt (s : FilesSorter) (c : α → α → Ordering) (x y : α) :
    s.cmp c x y .gt = .gt := by
  unfold FilesSorter.cmp; simp

theorem cmp_lt_of_promote_lt (s : FilesSorter) (c : α → α → Ordering) (x y : α) :
    s.cmp c x y .lt = .lt := by
  unfold FilesSorter.cmp; simp

theorem promote_gt (s : FilesSorter) (a b : File) (hdf : s.dir_first = true)
    (hA : a.is_dir = false) (hB : b.is_dir = true) : s.promote a b = .gt := by
  unfold FilesSorter.promote
  rw [hdf, hA, hB]
  rfl

theorem promote_lt (s : FilesSorter) (a b : File) (hdf : s.dir_first = true)
    (hA : a.is_dir = true) (hB : b.is_dir = false) : s.promote a b = .lt := by
  unfold FilesSorter.promote
  rw [hdf, hA, hB]
  rfl

theorem timeCmp_cross_gt (s : FilesSorter) (t : File → Option Nat) (a b : File)
    (hdf : s.dir_first = true) (ha : (t a).isSome) (hb : (t b).isSome)
    (hA : a.is_dir = false) (hB : b.is_dir = true) : timeCmp s t a b = .gt := by
  rw [timeCmp_eq_keyCmp_of_some s t a b ha hb, promote_gt s a b hdf hA hB,
    cmp_gt_of_promote_gt]

theorem natPairCmp_cross_gt (s : FilesSorter) (a b : File)
    (hdf : s.dir_first = true) (hA : a.is_dir = false) (hB : b.is_dir = true) :
    s.natPairCmp a b = .gt := by
  rw [s.natPairCmp_eq_then, promote_gt s a b hdf hA hB]
  rfl

theorem pairCmp_cross_gt (s : FilesSorter) (sizes : List Nat → Option Nat) (a b : File)
    (hdf : s.dir_first = true)
    (hmode : s.by_ = SortBy.Alphabetical ∨ s.by_ = SortBy.Natural ∨ s.by_ = SortBy.Size)
    (hA : a.is_dir = false) (hB : b.is_dir = true) : s.pairCmp sizes a b = .gt := by
  rcases hmode with h | h | h
  · cases hs : s.sensitive
    · rw [pairCmp_alpha_insensitive s sizes h hs]
      simp only [promote_gt s a b hdf hA hB, cmp_gt_of_promote_gt]
    · rw [pairCmp_alpha_sensitive s sizes h hs]
      simp only [promote_gt s a b hdf hA hB, cmp_gt_of_promote_gt]
  · rw [pairCmp_natural s sizes h]
    exact natPairCmp_cross_gt s a b hdf hA hB
  · rw [pairCmp_size s sizes h]
    simp only [promote_gt s a b hdf hA hB, cmp_gt_of_promote_gt]

/-! ## Sorting theory for the comparator-driven insertion sort -/

theorem perm_orderedInsertC (c : α → α → Ordering) (x : α) (l : List α) :
    (orderedInsertC c x l).Perm (x :: l) := by
  induction l with
  | nil => exact List.Perm.refl _
  | cons y t ih =>
    unfold orderedInsertC
    split_ifs
    · exact (ih.cons y).trans (List.Perm.swap x y t)
    · exact List.Perm.refl _

theorem perm_sortByCmp (c : α → α → Ordering) (l : List α) :
    (sortByCmp c l).Perm l := by
  induction l with
  | nil => exact List.Perm.refl _
  | cons x t ih =>
    exact (perm_orderedInsertC c x (sortByCmp c t)).trans (ih.cons x)

theorem mem_orderedInsertC {c : α → α → Ordering} {x : α} {l : List α} {a : α}
    (h : a ∈ orderedInsertC c x l) : a = x ∨ a ∈ l := by
  have := (perm_orderedInsertC c x l).mem_iff.mp h
  simpa using this

theorem mem_sortByCmp {c : α → α → Ordering} {l : List α} {a : α}
    (h : a ∈ sortByCmp c l) : a ∈ l :=
  (perm_sortByCmp c l).mem_iff.mp h

theorem pairwise_orderedInsertC {c : α → α → Ordering} {x : α} {l : List α}
    (hsymm : ∀ a b, (c a b).swap = c b a)
    (htr : ∀ a, (a = x ∨ a ∈ l) → ∀ b, (b = x ∨ b ∈ l) → ∀ d, (d = x ∨ d ∈ l) →
      c a b ≠ .gt → c b d ≠ .gt → c a d ≠ .gt)
    (hl : l.Pairwise (fun a b => c a b ≠ .gt)) :
    (orderedInsertC c x l).Pairwise (fun a b => c a b ≠ .gt) := by
  induction l with
  | nil => simp [orderedInsertC]
  | cons y t ih =>
    rcases List.pairwise_cons.mp hl with ⟨hy, ht⟩
    unfold orderedInsertC
    split_ifs with hgt
    · rw [List.pairwise_cons]
      constructor
      · intro b hb
        rcases mem_orderedInsertC hb with heq | hb
        · subst heq
          have hs := hsymm b y
          rw [hgt] at hs
          rw [← hs]
          simp [Ordering.swap]
        · exact hy b hb
      · exact ih
          (fun a ha b hb d hd => htr a (by tauto) b (by tauto) d (by tauto))
          ht
    · rw [List.pairwise_cons]
      constructor
      · intro b hb
        rcases List.mem_cons.mp hb with rfl | hb
        · exact hgt
        · exact htr x (Or.inl rfl) y (by simp) b (by simp [hb]) hgt (hy b hb)
      · exact hl

theorem pairwise_sortByCmp {c : α → α → Ordering} {l : List α}
    (hsymm : ∀ a b, (c a b).swap = c b a)
    (htr : ∀ a ∈ l, ∀ b ∈ l, ∀ d ∈ l, c a b ≠ .gt → c b d ≠ .gt → c a d ≠ .gt) :
    (sortByCmp c l).Pairwise (fun a b => c a b ≠ .gt) := by
  induction l with
  | nil => simp [sortByCmp]
  | cons x t ih =>
    show (orderedInsertC c x (sortByCmp c t)).Pairwise _
    apply pairwise_orderedInsertC hsymm
    · intro a ha b hb d hd
      have mm : ∀ e, (e = x ∨ e ∈ sortByCmp c t) → e ∈ x :: t := by
        intro e he
        rcases he with rfl | he
        · simp
        · simp [mem_sortByCmp he]
      exact htr a (mm a ha) b (mm b hb) d (mm d hd)
    · exact ih (fun a ha b hb d hd => htr a (by simp [ha]) b (by simp [hb]) d (by simp [hd]))

theorem pairwise_orderedInsertC_mem {c : α → α → Ordering} {x : α} {l : List α}
    (hsymm : ∀ a, (a = x ∨ a ∈ l) → ∀ b, (b = x ∨ b ∈ l) → (c a b).swap = c b a)
    (htr : ∀ a, (a = x ∨ a ∈ l) → ∀ b, (b = x ∨ b ∈ l) → ∀ d, (d = x ∨ d ∈ l) →
      c a b ≠ .gt → c b d ≠ .gt → c a d ≠ .gt)
    (hl : l.Pairwise (fun a b => c a b ≠ .gt)) :
    (orderedInsertC c x l).Pairwise (fun a b => c a b ≠ .gt) := by
  induction l with
  | nil => simp [orderedInsertC]
  | cons y t ih =>
    rcases List.pairwise_cons.mp hl with ⟨hy, ht⟩
    unfold orderedInsertC
    split_ifs with hgt
    · rw [List.pairwise_cons]
      constructor
      · intro b hb
        rcases mem_orderedInsertC hb with heq | hb
        · subst heq
          have hs := hsymm b (Or.inl rfl) y (Or.inr (by simp))
          rw [hgt] at hs
          rw [← hs]
          simp [Ordering.swap]
        · exact hy b hb
      · exact ih
          (fun a ha b hb => hsymm a (by tauto) b (by tauto))
          (fun a ha b hb d hd => htr a (by tauto) b (by tauto) d (by tauto))
          ht
    · rw [List.pairwise_cons]
      constructor
      · intro b hb
        rcases List.mem_cons.mp hb with rfl | hb
        · exact hgt
        · exact htr x (Or.inl rfl) y (by simp) b (by simp [hb]) hgt (hy b hb)
      · exact hl

theorem pairwise_sortByCmp_mem {c : α → α → Ordering} {l : List α}
    (hsymm : ∀ a ∈ l, ∀ b ∈ l, (c a b).swap = c b a)
    (htr : ∀ a ∈ l, ∀ b ∈ l, ∀ d ∈ l, c a b ≠ .gt → c b d ≠ .gt → c a d ≠ .gt) :
    (sortByCmp c l).Pairwise (fun a b => c a b ≠ .gt) := by
  induction l with
  | nil => simp [sortByCmp]
  | cons x t ih =>
    show (orderedInsertC c x (sortByCmp c t)).Pairwise _
    have mm : ∀ e, (e = x ∨ e ∈ sortByCmp c t) → e ∈ x :: t := by
      intro e he
      rcases he with rfl | he
      · simp
      · simp [mem_sortByCmp he]
    apply pairwise_orderedInsertC_mem
    · intro a ha b hb
      exact hsymm a (mm a ha) b (mm b hb)
    · intro a ha b hb d hd
      exact htr a (mm a ha) b (mm b hb) d (mm d hd)
    · exact ih (fun a ha b hb => hsymm a (by simp [ha]) b (by simp [hb]))
        (fun a ha b hb d hd => htr a (by simp [ha]) b (by simp [hb]) d (by simp [hd]))

theorem sortByCmp_unstableSortSpec (c : α → α → Ordering) (l : List α) :
    UnstableSortSpec c l (sortByCmp c l) :=
  ⟨perm_sortByCmp c l, fun ht => pairwise_sortByCmp_mem ht.1 ht.2⟩

/-! ## The directories-first prefix shape -/

theorem all_not_dir_map {l : List File} (h : ∀ f ∈ l, f.is_dir = false) :
    l.map File.is_dir = List.replicate l.length false := by
  induction l with
  | nil => rfl
  | cons a t ih =>
    simp only [List.map_cons, List.length_cons, List.replicate_succ]
    rw [h a (by simp), ih (fun f hf => h f (by simp [hf]))]

theorem dir_pairwise_map {l : List File}
    (hp : l.Pairwise (fun a b => b.is_dir = true → a.is_dir = true)) :
    l.map File.is_dir =
      List.replicate (l.countP (fun f => f.is_dir)) true ++
      List.replicate (l.length - l.countP (fun f => f.is_dir)) false := by
  induction l with
  | nil => rfl
  | cons a t ih =>
    rcases List.pairwise_cons.mp hp with ⟨ha, ht⟩
    cases hd : a.is_dir
    · have hall : ∀ f ∈ t, f.is_dir = false := by
        intro f hf
        cases hfd : f.is_dir
        · rfl
        · rw [ha f hf hfd] at hd; exact hd
      have hcnt : List.countP (fun f => f.is_dir) (a :: t) = 0 := by
        rw [List.countP_eq_zero]
        intro f hf
        rcases List.mem_cons.mp hf with rfl | hf
        · simp [hd]
        · simp [hall f hf]
      rw [hcnt]
      simp only [List.replicate_zero, List.nil_append, Nat.sub_zero, List.map_cons,
        List.length_cons]
      rw [hd, all_not_dir_map hall]
      rfl
    · have hcnt : List.countP (fun f => f.is_dir) (a :: t) =
          List.countP (fun f => f.is_dir) t + 1 := by
        rw [List.countP_cons_of_pos]
        simp [hd]
      rw [hcnt]
      simp only [List.map_cons, List.length_cons, List.replicate_succ]
      rw [hd, ih ht]
      have : t.length + 1 - (List.countP (fun f => f.is_dir) t + 1) =
          t.length - List.countP (fun f => f.is_dir) t := by omega
      rw [this]
      rfl

theorem dir_pairwise_take_drop {l : List File}
    (hp : l.Pairwise (fun a b => b.is_dir = true → a.is_dir = true)) :
    (∀ f ∈ l.take (l.countP (fun f => f.is_dir)), f.is_dir = true) ∧
    (∀ f ∈ l.drop (l.countP (fun f => f.is_dir)), f.is_dir = false) := by
  induction l with
  | nil => simp
  | cons a t ih =>
    rcases List.pairwise_cons.mp hp with ⟨ha, ht⟩
    cases hd : a.is_dir
    · have hall : ∀ f ∈ t, f.is_dir = false := by
        intro f hf
        cases hfd : f.is_dir
        · rfl
        · rw [ha f hf hfd] at hd; exact hd
      have hcnt : List.countP (fun f => f.is_dir) (a :: t) = 0 := by
        rw [List.countP_eq_zero]
        intro f hf
        rcases List.mem_cons.mp hf with rfl | hf
        · simp [hd]
        · simp [hall f hf]
      rw [hcnt]
      constructor
      · intro f hf; simp at hf
      · intro f hf
        simp only [List.drop_zero] at hf
        rcases List.mem_cons.mp hf with rfl | hf
        · exact hd
        · exact hall f hf
    · have hcnt : List.countP (fun f => f.is_dir) (a :: t) =
          List.countP (fun f => f.is_dir) t + 1 := by
        rw [List.countP_cons_of_pos]
        simp [hd]
      rw [hcnt]
      constructor
      · intro f hf
        rw [List.take_succ_cons] at hf
        rcases List.mem_cons.mp hf with rfl | hf
        · exact hd
        · exact (ih ht).1 f hf
      · intro f hf
        rw [List.drop_succ_cons] at hf
        exact (ih ht).2 f hf

/-! ## The natural-mode permutation application -/

theorem takeOut_eq_map (d : File) :
    ∀ (idx : List Nat) (items : List File), idx.Nodup →
      (∀ i ∈ idx, i < items.length) →
      takeOut items d idx = idx.map (fun i => items.getD i d) := by
  intro idx
  induction idx with
  | nil => intro items _ _; rfl
  | cons i rest ih =>
    intro items hnd hb
    rcases List.nodup_cons.mp hnd with ⟨hni, hnd'⟩
    show items.getD i d :: takeOut (items.set i d) d rest = _
    rw [ih (items.set i d) hnd'
      (fun j hj => by rw [List.length_set]; exact hb j (by simp [hj]))]
    simp only [List.map_cons, List.cons.injEq, true_and]
    apply List.map_congr_left
    intro j hj
    have hne : i ≠ j := fun he => hni (he ▸ hj)
    simp only [List.getD_eq_getElem?_getD]
    rw [List.getElem?_set_ne hne]

theorem range_map_getD (d : File) :
    ∀ (l : List File), (List.range l.length).map (fun i => l.getD i d) = l := by
  intro l
  induction l with
  | nil => rfl
  | cons a t ih =>
    show (List.range (t.length + 1)).map _ = _
    rw [List.range_succ_eq_map]
    simp only [List.map_cons, List.map_map]
    show a :: List.map (fun i => t.getD i d) (List.range t.length) = a :: t
    rw [ih]

theorem naturalIndices_perm (s : FilesSorter) (items : List File) :
    (s.naturalIndices items).Perm (List.range items.length) :=
  perm_sortByCmp _ _

theorem naturalIndices_nodup (s : FilesSorter) (items : List File) :
    (s.naturalIndices items).Nodup :=
  (naturalIndices_perm s items).symm.nodup (List.nodup_range _)

theorem naturalIndices_bounds (s : FilesSorter) (items : List File) :
    ∀ i ∈ s.naturalIndices items, i < items.length := by
  intro i hi
  have := (naturalIndices_perm s items).mem_iff.mp hi
  exact List.mem_range.mp this

theorem sort_naturally_eq_map (s : FilesSorter) (items : List File) :
    s.sort_naturally items = (s.naturalIndices items).map
      (fun i => items.getD i (mkDummy (items.getD 0 defFile).meta)) := by
  unfold FilesSorter.sort_naturally
  exact takeOut_eq_map _ _ items (naturalIndices_nodup s items)
    (naturalIndices_bounds s items)

theorem sort_naturally_perm (s : FilesSorter) (items : List File) :
    (s.sort_naturally items).Perm items := by
  rw [sort_naturally_eq_map]
  have h1 := (naturalIndices_perm s items).map
    (fun i => items.getD i (mkDummy (items.getD 0 defFile).meta))
  have h2 := range_map_getD (mkDummy (items.getD 0 defFile).meta) items
  rw [h2] at h1
  exact h1

theorem sort_perm (s : FilesSorter) (items : List File)
    (sizes : List Nat → Option Nat) : ((s.sort items sizes).2).Perm items := by
  unfold FilesSorter.sort
  by_cases he : items.isEmpty
  · rw [if_pos he]
  · rw [if_neg he]
    cases s.by_ <;> simp only
    · exact perm_sortByCmp _ _
    · exact perm_sortByCmp _ _
    · exact perm_sortByCmp _ _
    · exact sort_naturally_perm s items
    · exact perm_sortByCmp _ _

/-! ## Directory shape of each mode's output -/

theorem pairwise_dir_sortByCmp_mode (s : FilesSorter) (sizes : List Nat → Option Nat)
    (items : List File) (hdf : s.dir_first = true)
    (hmode : s.by_ = SortBy.Alphabetical ∨ s.by_ = SortBy.Natural ∨ s.by_ = SortBy.Size) :
    (sortByCmp (s.pairCmp sizes) items).Pairwise
      (fun a b => b.is_dir = true → a.is_dir = true) := by
  have hl := cmpLawful_pairCmp_of s sizes hmode
  have hp := pairwise_sortByCmp (l := items) hl.symm
    (fun a _ b _ d _ h1 h2 => hl.le_trans h1 h2)
  refine hp.imp ?_
  intro a b hle hbd
  cases had : a.is_dir
  · exact absurd (pairCmp_cross_gt s sizes a b hdf hmode had hbd) hle
  · rfl

theorem pairwise_dir_sortByCmp_time (s : FilesSorter) (t : File → Option Nat)
    (items : List File) (hdf : s.dir_first = true)
    (hts : ∀ f ∈ items, (t f).isSome = true) :
    (sortByCmp (timeCmp s t) items).Pairwise
      (fun a b => b.is_dir = true → a.is_dir = true) := by
  have hp := pairwise_sortByCmp (c := timeCmp s t) (l := items)
    (fun a b => timeCmp_symm s t a b)
    (fun a ha b hb d hd h1 h2 =>
      timeCmp_le_trans_of_some s t a b d (hts a ha) (hts b hb) (hts d hd) h1 h2)
  refine hp.imp_of_mem ?_
  intro a b ha hb hle hbd
  cases had : a.is_dir
  · exact absurd (timeCmp_cross_gt s t a b hdf (hts a (mem_sortByCmp ha))
      (hts b (mem_sortByCmp hb)) had hbd) hle
  · rfl

theorem sort_naturally_fix_default (s : FilesSorter) (items : List File) :
    s.sort_naturally items =
      (s.naturalIndices items).map (fun i => items.getD i defFile) := by
  rw [sort_naturally_eq_map]
  apply List.map_congr_left
  intro i hi
  have hb := naturalIndices_bounds s items i hi
  simp [List.getD_eq_getElem?_getD, List.getElem?_eq_getElem hb]

theorem pairwise_dir_sort_naturally (s : FilesSorter) (items : List File)
    (hdf : s.dir_first = true) :
    (s.sort_naturally items).Pairwise (fun a b => b.is_dir = true → a.is_dir = true) := by
  rw [sort_naturally_fix_default, List.pairwise_map]
  have hl : CmpLawful (fun i j => s.natPairCmp (items.getD i defFile) (items.getD j defFile)) :=
    (cmpLawful_natPairCmp s).pullback (fun i => items.getD i defFile)
  have hp := pairwise_sortByCmp (l := List.range items.length) hl.symm
    (fun a _ b _ d _ h1 h2 => hl.le_trans h1 h2)
  refine hp.imp ?_
  intro i j hle hbd
  cases had : (items.getD i defFile).is_dir
  · exact absurd (natPairCmp_cross_gt s _ _ hdf had hbd) hle
  · rfl

/-! ## Further helper lemmas for the claims -/

theorem natPairCmp_cross_lt (s : FilesSorter) (a b : File)
    (hdf : s.dir_first = true) (hA : a.is_dir = true) (hB : b.is_dir = false) :
    s.natPairCmp a b = .lt := by
  rw [s.natPairCmp_eq_then, promote_lt s a b hdf hA hB]
  rfl

theorem pairCmp_cross_lt (s : FilesSorter) (sizes : List Nat → Option Nat) (a b : File)
    (hdf : s.dir_first = true)
    (hmode : s.by_ = SortBy.Alphabetical ∨ s.by_ = SortBy.Natural ∨ s.by_ = SortBy.Size)
    (hA : a.is_dir = true) (hB : b.is_dir = false) : s.pairCmp sizes a b = .lt := by
  rcases hmode with h | h | h
  · cases hs : s.sensitive
    · rw [pairCmp_alpha_insensitive s sizes h hs]
      simp only [promote_lt s a b hdf hA hB, cmp_lt_of_promote_lt]
    · rw [pairCmp_alpha_sensitive s sizes h hs]
      simp only [promote_lt s a b hdf hA hB, cmp_lt_of_promote_lt]
  · rw [pairCmp_natural s sizes h]
    exact natPairCmp_cross_lt s a b hdf hA hB
  · rw [pairCmp_size s sizes h]
    simp only [promote_lt s a b hdf hA hB, cmp_lt_of_promote_lt]

theorem timeCmp_cross_lt (s : FilesSorter) (t : File → Option Nat) (a b : File)
    (hdf : s.dir_first = true) (ha : (t a).isSome = true) (hb : (t b).isSome = true)
    (hA : a.is_dir = true) (hB : b.is_dir = false) : timeCmp s t a b = .lt := by
  rw [timeCmp_eq_keyCmp_of_some s t a b ha hb, promote_lt s a b hdf hA hB,
    cmp_lt_of_promote_lt]

theorem sort_snd_eq (s : FilesSorter) (items : List File)
    (sizes : List Nat → Option Nat) (he : items.isEmpty = false) :
    (s.sort items sizes).2 =
      match s.by_ with
      | SortBy.Natural => s.sort_naturally items
      | _ => sortByCmp (s.pairCmp sizes) items := by
  unfold FilesSorter.sort
  rw [if_neg (by simp [he])]
  cases s.by_ <;> rfl

theorem specResolvedSize_eq (sizes : List Nat → Option Nat) (f : File) :
    (if f.is_dir then sizes f.url else none).getD f.length = specResolvedSize sizes f := by
  unfold specResolvedSize
  cases hd : f.is_dir
  · simp
  · simp only [if_true]
    cases sizes f.url <;> rfl

/-! ## The skip characters of the natural comparator -/

theorem skipB_iff (c : Nat) : skipB c = true ↔
    (c = 32 ∨ (9 ≤ c ∧ c ≤ 13) ∨ c = 133 ∨ c = 160 ∨ c = 5760 ∨
     (8192 ≤ c ∧ c ≤ 8202) ∨ c = 8232 ∨ c = 8233 ∨ c = 8239 ∨ c = 8287 ∨
     c = 12288 ∨ c ≤ 31 ∨ (127 ≤ c ∧ c ≤ 159) ∨ (8203 ≤ c ∧ c ≤ 8205) ∨
     c = 65279) := by
  simp only [skipB, isWhitespaceB, isControlB, Bool.or_eq_true, Bool.and_eq_true,
    decide_eq_true_eq, beq_iff_eq]
  tauto

theorem skip_toLowerFull {c : Nat} (h : skipB c = true) : toLowerFull c = [c] := by
  rw [skipB_iff] at h
  have h1 : ¬(65 ≤ c ∧ c ≤ 90) := by omega
  have h2 : ¬(192 ≤ c ∧ c ≤ 222 ∧ c ≠ 215) := by omega
  unfold toLowerFull
  rw [if_neg h1, if_neg h2]

theorem toLowerFull_not_skip {c : Nat} (h : skipB c = false) :
    ∀ x ∈ toLowerFull c, skipB x = false := by
  intro x hx
  unfold toLowerFull at hx
  split_ifs at hx with h1 h2
  · simp only [List.mem_singleton] at hx
    subst hx
    rw [Bool.eq_false_iff]
    intro hk
    rw [skipB_iff] at hk
    omega
  · simp only [List.mem_singleton] at hx
    subst hx
    rw [Bool.eq_false_iff]
    intro hk
    rw [skipB_iff] at hk
    omega
  · simp only [List.mem_singleton] at hx
    subst hx
    exact h

theorem flatMap_toLowerFull_filter (l : List Nat) :
    (l.filter (fun c => !skipB c)).flatMap toLowerFull =
      (l.flatMap toLowerFull).filter (fun c => !skipB c) := by
  induction l with
  | nil => rfl
  | cons c cs ih =>
    cases hc : skipB c
    · rw [List.filter_cons_of_pos (by simp [hc]), List.flatMap_cons, List.flatMap_cons,
        List.filter_append, ih]
      congr 1
      exact (List.filter_eq_self.mpr (fun x hx => by
        simp [toLowerFull_not_skip hc x hx])).symm
    · rw [List.filter_cons_of_neg (by simp [hc]), List.flatMap_cons, List.filter_append,
        ih, skip_toLowerFull hc]
      simp [hc]

/-! ## The claims -/

/-- C1 (counterexample): the claimed promotion priority fails in Created
mode.  With directories-first enabled and both timestamps unobtainable,
the comparator returns equal before consulting promotion, so the pair
(directory, non-directory) does not compare with the directory strictly
less, and the sorted output [file, dir] does not start with its
directory entry. -/
theorem C1_counterexample :
    ((FilesSorter.mk SortBy.Created true false true).sort
        [mkFile [102] false 10 none none, mkFile [100] true 0 none none]
        (fun _ => none)).2.map File.is_dir = [false, true] ∧
    (FilesSorter.mk SortBy.Created true false true).pairCmp (fun _ => none)
      (mkFile [100] true 0 none none) (mkFile [102] false 10 none none) ≠
      Ordering.lt := by
  constructor
  · decide
  · decide

/-- C1 (amended): with directories-first enabled, in Alphabetical,
Natural and Size modes unconditionally, and in Created/Modified modes
provided every entry's relevant timestamp is obtainable, every pair of
a directory and a non-directory compares with the directory strictly
less, and the first k output entries (k = input directory count) are
exactly the directories. -/
theorem C1_dirs_first (s : FilesSorter) (items : List File)
    (sizes : List Nat → Option Nat) (hdf : s.dir_first = true)
    (hc : s.by_ = SortBy.Created → ∀ f ∈ items, f.meta.created.isSome = true)
    (hm : s.by_ = SortBy.Modified → ∀ f ∈ items, f.meta.modified.isSome = true) :
    (∀ a ∈ items, ∀ b ∈ items, a.is_dir = true → b.is_dir = false →
      s.pairCmp sizes a b = Ordering.lt) ∧
    (∀ f ∈ (s.sort items sizes).2.take (items.countP (fun f => f.is_dir)),
      f.is_dir = true) ∧
    (∀ f ∈ (s.sort items sizes).2.drop (items.countP (fun f => f.is_dir)),
      f.is_dir = false) := by
  have hpair : ∀ a ∈ items, ∀ b ∈ items, a.is_dir = true → b.is_dir = false →
      s.pairCmp sizes a b = Ordering.lt := by
    intro a ha b hb hA hB
    cases hby : s.by_
    · exact pairCmp_cross_lt s sizes a b hdf (Or.inl hby) hA hB
    · rw [pairCmp_created s sizes hby]
      exact timeCmp_cross_lt s _ a b hdf (hc hby a ha) (hc hby b hb) hA hB
    · rw [pairCmp_modified s sizes hby]
      exact timeCmp_cross_lt s _ a b hdf (hm hby a ha) (hm hby b hb) hA hB
    · exact pairCmp_cross_lt s sizes a b hdf (Or.inr (Or.inl hby)) hA hB
    · exact pairCmp_cross_lt s sizes a b hdf (Or.inr (Or.inr hby)) hA hB
  refine ⟨hpair, ?_⟩
  by_cases hne : items = []
  · subst hne
    constructor <;> intro f hf <;> simp [FilesSorter.sort] at hf
  · have he' : items.isEmpty = false := by
      cases items
      · exact absurd rfl hne
      · rfl
    have hshape : ((s.sort items sizes).2).Pairwise
        (fun a b => b.is_dir = true → a.is_dir = true) := by
      rw [sort_snd_eq s items sizes he']
      cases hby : s.by_
      · exact pairwise_dir_sortByCmp_mode s sizes items hdf (Or.inl hby)
      · rw [pairCmp_created s sizes hby]
        exact pairwise_dir_sortByCmp_time s _ items hdf (hc hby)
      · rw [pairCmp_modified s sizes hby]
        exact pairwise_dir_sortByCmp_time s _ items hdf (hm hby)
      · exact pairwise_dir_sort_naturally s items hdf
      · exact pairwise_dir_sortByCmp_mode s sizes items hdf (Or.inr (Or.inr hby))
    have hcnt : ((s.sort items sizes).2).countP (fun f => f.is_dir) =
        items.countP (fun f => f.is_dir) :=
      List.Perm.countP_eq _ (sort_perm s items sizes)
    rw [← hcnt]
    exact dir_pairwise_take_drop hshape

/-- C1 (witness for the amended theorem) at a concrete Alphabetical
configuration with one directory and one file. -/
theorem C1_dirs_first_witness :
    (∀ a ∈ [mkFile [102] false 1 none none, mkFile [100] true 2 none none],
      ∀ b ∈ [mkFile [102] false 1 none none, mkFile [100] true 2 none none],
      a.is_dir = true → b.is_dir = false →
      (FilesSorter.mk SortBy.Alphabetical true false true).pairCmp (fun _ => none) a b =
        Ordering.lt) ∧
    (∀ f ∈ ((FilesSorter.mk SortBy.Alphabetical true false true).sort
        [mkFile [102] false 1 none none, mkFile [100] true 2 none none]
        (fun _ => none)).2.take
        (List.countP (fun f => f.is_dir)
          [mkFile [102] false 1 none none, mkFile [100] true 2 none none]),
      f.is_dir = true) ∧
    (∀ f ∈ ((FilesSorter.mk SortBy.Alphabetical true false true).sort
        [mkFile [102] false 1 none none, mkFile [100] true 2 none none]
        (fun _ => none)).2.drop
        (List.countP (fun f => f.is_dir)
          [mkFile [102] false 1 none none, mkFile [100] true 2 none none]),
      f.is_dir = false) :=
  C1_dirs_first (FilesSorter.mk SortBy.Alphabetical true false true)
    [mkFile [102] false 1 none none, mkFile [100] true 2 none none]
    (fun _ => none) rfl (fun h => nomatch h) (fun h => nomatch h)

/-- C2: for every input, every mode and every configuration, the output
sequence of sort is a permutation of the input sequence; in particular
the transient placeholder of the natural-mode reindexing contributes
nothing to the final multiset. -/
theorem C2_permutation (s : FilesSorter) (items : List File)
    (sizes : List Nat → Option Nat) : ((s.sort items sizes).2).Perm items :=
  sort_perm s items sizes

/-- C3: sort returns false and leaves the sequence unchanged exactly
when the input is empty; every non-empty input returns true. -/
theorem C3_empty_iff (s : FilesSorter) (items : List File)
    (sizes : List Nat → Option Nat) :
    (((s.sort items sizes).1 = false ∧ (s.sort items sizes).2 = items) ↔
      items = []) ∧
    (items ≠ [] → (s.sort items sizes).1 = true) := by
  have hfst : ∀ he : items.isEmpty = false, (s.sort items sizes).1 = true := by
    intro he
    unfold FilesSorter.sort
    rw [if_neg (by simp [he])]
    cases s.by_ <;> rfl
  constructor
  · constructor
    · rintro ⟨h1, _⟩
      cases hl : items
      · rfl
      · subst hl
        rw [hfst rfl] at h1
        exact absurd h1 (by simp)
    · rintro rfl
      exact ⟨rfl, rfl⟩
  · intro h
    apply hfst
    cases items
    · exact absurd rfl h
    · rfl

/-- C3 (witness) at a singleton input and at the empty input, through
the theorem itself. -/
theorem C3_empty_iff_witness :
    ((((FilesSorter.mk SortBy.Size true false false).sort
        [mkFile [97] false 1 none none] (fun _ => none)).1 = false ∧
      ((FilesSorter.mk SortBy.Size true false false).sort
        [mkFile [97] false 1 none none] (fun _ => none)).2 =
        [mkFile [97] false 1 none none]) ↔
      [mkFile [97] false 1 none none] = []) ∧
    ([mkFile [97] false 1 none none] ≠ [] →
      ((FilesSorter.mk SortBy.Size true false false).sort
        [mkFile [97] false 1 none none] (fun _ => none)).1 = true) :=
  C3_empty_iff (FilesSorter.mk SortBy.Size true false false)
    [mkFile [97] false 1 none none] (fun _ => none)

/-- C4 (counterexample): with directories-first enabled in Created
mode and a directory whose timestamp is unobtainable, the program's
sort contract does not fix the partition boundary, so the claim fails
as stated.  At the concrete three-entry input below, each of the two
displayed outputs is an allowed result of its run (a permutation of
the input that is even fully ordered under that run's comparator — the
timestampless directory ties with everything, so either placement is
consistent), yet the reverse=false output has its directory at
position 0 and the reverse=true output has it at position 2. -/
theorem C4_counterexample :
    UnstableSortSpec
      ((FilesSorter.mk SortBy.Created true false true).pairCmp (fun _ => none))
      [mkFile [103] true 0 none none, mkFile [101] false 1 (some 1) none,
       mkFile [102] false 2 (some 2) none]
      [mkFile [103] true 0 none none, mkFile [101] false 1 (some 1) none,
       mkFile [102] false 2 (some 2) none] ∧
    UnstableSortSpec
      ((FilesSorter.mk SortBy.Created true true true).pairCmp (fun _ => none))
      [mkFile [103] true 0 none none, mkFile [101] false 1 (some 1) none,
       mkFile [102] false 2 (some 2) none]
      [mkFile [102] false 2 (some 2) none, mkFile [101] false 1 (some 1) none,
       mkFile [103] true 0 none none] ∧
    [mkFile [103] true 0 none none, mkFile [101] false 1 (some 1) none,
     mkFile [102] false 2 (some 2) none].map File.is_dir ≠
      [mkFile [102] false 2 (some 2) none, mkFile [101] false 1 (some 1) none,
       mkFile [103] true 0 none none].map File.is_dir := by
  refine ⟨⟨List.Perm.refl _, fun _ => by decide⟩, ⟨?_, fun _ => by decide⟩, by decide⟩
  have p1 : [mkFile [103] true 0 none none, mkFile [101] false 1 (some 1) none,
      mkFile [102] false 2 (some 2) none].Perm
      [mkFile [101] false 1 (some 1) none, mkFile [103] true 0 none none,
       mkFile [102] false 2 (some 2) none] :=
    List.Perm.swap (mkFile [101] false 1 (some 1) none)
      (mkFile [103] true 0 none none) [mkFile [102] false 2 (some 2) none]
  have p2 : [mkFile [101] false 1 (some 1) none, mkFile [103] true 0 none none,
      mkFile [102] false 2 (some 2) none].Perm
      [mkFile [101] false 1 (some 1) none, mkFile [102] false 2 (some 2) none,
       mkFile [103] true 0 none none] :=
    (List.Perm.swap (mkFile [102] false 2 (some 2) none)
      (mkFile [103] true 0 none none) []).cons (mkFile [101] false 1 (some 1) none)
  have p3 : [mkFile [101] false 1 (some 1) none, mkFile [102] false 2 (some 2) none,
      mkFile [103] true 0 none none].Perm
      [mkFile [102] false 2 (some 2) none, mkFile [101] false 1 (some 1) none,
       mkFile [103] true 0 none none] :=
    List.Perm.swap (mkFile [102] false 2 (some 2) none)
      (mkFile [101] false 1 (some 1) none) [mkFile [103] true 0 none none]
  exact (p1.trans (p2.trans p3)).symm

/-- C4 (amended): with directories-first enabled, toggling the reverse
flag preserves the per-position directory flags of the output — in
Alphabetical, Natural and Size modes unconditionally, and in
Created/Modified modes provided every entry's relevant timestamp is
obtainable — for every pair of outputs the sort contract allows the
two runs to produce. -/
theorem C4_reverse_partition_amended (b : SortBy) (sens : Bool)
    (items : List File) (sizes : List Nat → Option Nat)
    (hc : b = SortBy.Created → ∀ f ∈ items, f.meta.created.isSome = true)
    (hm : b = SortBy.Modified → ∀ f ∈ items, f.meta.modified.isSome = true)
    (out1 out2 : List File)
    (h1 : UnstableSortSpec ((FilesSorter.mk b sens false true).pairCmp sizes)
      items out1)
    (h2 : UnstableSortSpec ((FilesSorter.mk b sens true true).pairCmp sizes)
      items out2) :
    out1.map File.is_dir = out2.map File.is_dir := by
  have hshape : ∀ (s : FilesSorter), s.by_ = b → s.dir_first = true →
      ∀ out, UnstableSortSpec (s.pairCmp sizes) items out →
      out.map File.is_dir =
        List.replicate (items.countP (fun f => f.is_dir)) true ++
        List.replicate (items.length - items.countP (fun f => f.is_dir)) false := by
    intro s hby hdf out hspec
    obtain ⟨hperm, hsorted⟩ := hspec
    have hmem : ∀ f ∈ out, f ∈ items := fun f hf => hperm.mem_iff.mp hf
    have htot_cross : TotalOn (s.pairCmp sizes) items ∧
        (∀ a ∈ items, ∀ b ∈ items, a.is_dir = false → b.is_dir = true →
          s.pairCmp sizes a b = Ordering.gt) := by
      cases b
      · have hl := cmpLawful_pairCmp_of s sizes (Or.inl hby)
        exact ⟨⟨fun a _ b _ => hl.symm a b,
            fun a _ b _ d _ h1 h2 => hl.le_trans h1 h2⟩,
          fun a _ b _ hA hB => pairCmp_cross_gt s sizes a b hdf (Or.inl hby) hA hB⟩
      · have hts := hc rfl
        constructor
        · rw [pairCmp_created s sizes hby]
          exact ⟨fun a _ b _ => timeCmp_symm s _ a b,
            fun a ha b hb d hd h1 h2 => timeCmp_le_trans_of_some s _ a b d
              (hts a ha) (hts b hb) (hts d hd) h1 h2⟩
        · intro a ha b hb hA hB
          rw [pairCmp_created s sizes hby]
          exact timeCmp_cross_gt s _ a b hdf (hts a ha) (hts b hb) hA hB
      · have hts := hm rfl
        constructor
        · rw [pairCmp_modified s sizes hby]
          exact ⟨fun a _ b _ => timeCmp_symm s _ a b,
            fun a ha b hb d hd h1 h2 => timeCmp_le_trans_of_some s _ a b d
              (hts a ha) (hts b hb) (hts d hd) h1 h2⟩
        · intro a ha b hb hA hB
          rw [pairCmp_modified s sizes hby]
          exact timeCmp_cross_gt s _ a b hdf (hts a ha) (hts b hb) hA hB
      · have hl := cmpLawful_pairCmp_of s sizes (Or.inr (Or.inl hby))
        exact ⟨⟨fun a _ b _ => hl.symm a b,
            fun a _ b _ d _ h1 h2 => hl.le_trans h1 h2⟩,
          fun a _ b _ hA hB =>
            pairCmp_cross_gt s sizes a b hdf (Or.inr (Or.inl hby)) hA hB⟩
      · have hl := cmpLawful_pairCmp_of s sizes (Or.inr (Or.inr hby))
        exact ⟨⟨fun a _ b _ => hl.symm a b,
            fun a _ b _ d _ h1 h2 => hl.le_trans h1 h2⟩,
          fun a _ b _ hA hB =>
            pairCmp_cross_gt s sizes a b hdf (Or.inr (Or.inr hby)) hA hB⟩
    have hpw := hsorted htot_cross.1
    have hdirpw : out.Pairwise (fun a b => b.is_dir = true → a.is_dir = true) := by
      refine hpw.imp_of_mem ?_
      intro a b ha hb hle hbd
      cases had : a.is_dir
      · exact absurd (htot_cross.2 a (hmem a ha) b (hmem b hb) had hbd) hle
      · rfl
    rw [dir_pairwise_map hdirpw, List.Perm.countP_eq _ hperm, hperm.length_eq]
  rw [hshape _ rfl rfl out1 h1, hshape _ rfl rfl out2 h2]

/-- C4 (witness for the amended theorem): the two insertion-sort model
outputs — which satisfy the sort contract — of an Alphabetical
directories-first configuration, with reverse off and on, carry the
same per-position directory flags. -/
theorem C4_reverse_partition_amended_witness :
    (sortByCmp ((FilesSorter.mk SortBy.Alphabetical true false true).pairCmp
        (fun _ => none))
      [mkFile [102] false 1 none none, mkFile [100] true 2 none none]).map
        File.is_dir =
    (sortByCmp ((FilesSorter.mk SortBy.Alphabetical true true true).pairCmp
        (fun _ => none))
      [mkFile [102] false 1 none none, mkFile [100] true 2 none none]).map
        File.is_dir :=
  C4_reverse_partition_amended SortBy.Alphabetical true
    [mkFile [102] false 1 none none, mkFile [100] true 2 none none]
    (fun _ => none) (fun h => nomatch h) (fun h => nomatch h) _ _
    (sortByCmp_unstableSortSpec _ _) (sortByCmp_unstableSortSpec _ _)

/-- C5: in Size mode the resolved key of a directory is its size-table
value when present and its own length otherwise, while a non-directory
always resolves to its own length (the table is never consulted for
it); the comparator compares exactly these resolved sizes numerically
(under promotion and reverse). -/
theorem C5_size_resolution (s : FilesSorter) (sizes : List Nat → Option Nat)
    (a b : File) (h : s.by_ = SortBy.Size) :
    s.pairCmp sizes a b =
      s.cmp cmpNat (specResolvedSize sizes a) (specResolvedSize sizes b)
        (s.promote a b) := by
  rw [pairCmp_size s sizes h]
  simp only [specResolvedSize_eq]

/-- C5 (witness): a directory of length 0 with table value 500 resolves
to 500; a non-directory of length 10 resolves to 10 even though the
table holds 999 for its identifier. -/
theorem C5_size_resolution_witness :
    (FilesSorter.mk SortBy.Size true false false).pairCmp
      (fun u => if u = [100] then some 500 else if u = [102] then some 999 else none)
      (mkFile [100] true 0 none none) (mkFile [102] false 10 none none) =
      (FilesSorter.mk SortBy.Size true false false).cmp cmpNat
        (specResolvedSize
          (fun u => if u = [100] then some 500 else if u = [102] then some 999 else none)
          (mkFile [100] true 0 none none))
        (specResolvedSize
          (fun u => if u = [100] then some 500 else if u = [102] then some 999 else none)
          (mkFile [102] false 10 none none))
        ((FilesSorter.mk SortBy.Size true false false).promote
          (mkFile [100] true 0 none none) (mkFile [102] false 10 none none)) ∧
    specResolvedSize
      (fun u => if u = [100] then some 500 else if u = [102] then some 999 else none)
      (mkFile [100] true 0 none none) = 500 ∧
    specResolvedSize
      (fun u => if u = [100] then some 500 else if u = [102] then some 999 else none)
      (mkFile [102] false 10 none none) = 10 :=
  ⟨C5_size_resolution (FilesSorter.mk SortBy.Size true false false)
      (fun u => if u = [100] then some 500 else if u = [102] then some 999 else none)
      (mkFile [100] true 0 none none) (mkFile [102] false 10 none none) rfl,
    by decide, by decide⟩

/-- C6: in Created and Modified modes a pair with either timestamp
unobtainable compares equal (no error, no fallback key); with both
timestamps obtainable they are compared under promotion with reverse
applied to the key comparison. -/
theorem C6_timestamp_eq (s : FilesSorter) (sizes : List Nat → Option Nat)
    (a b : File) :
    (s.by_ = SortBy.Created →
      a.meta.created = none ∨ b.meta.created = none →
      s.pairCmp sizes a b = Ordering.eq) ∧
    (s.by_ = SortBy.Modified →
      a.meta.modified = none ∨ b.meta.modified = none →
      s.pairCmp sizes a b = Ordering.eq) ∧
    (∀ aa bb, s.by_ = SortBy.Created →
      a.meta.created = some aa → b.meta.created = some bb →
      s.pairCmp sizes a b = s.cmp cmpNat aa bb (s.promote a b)) ∧
    (∀ aa bb, s.by_ = SortBy.Modified →
      a.meta.modified = some aa → b.meta.modified = some bb →
      s.pairCmp sizes a b = s.cmp cmpNat aa bb (s.promote a b)) := by
  refine ⟨?_, ?_, ?_, ?_⟩
  · intro h hn
    rw [pairCmp_created s sizes h]
    rcases hn with hn | hn
    · exact timeCmp_eq_of_none_left s _ a b hn
    · exact timeCmp_eq_of_none_right s _ a b hn
  · intro h hn
    rw [pairCmp_modified s sizes h]
    rcases hn with hn | hn
    · exact timeCmp_eq_of_none_left s _ a b hn
    · exact timeCmp_eq_of_none_right s _ a b hn
  · intro aa bb h ha hb
    rw [pairCmp_created s sizes h]
    simp only [timeCmp, ha, hb]
  · intro aa bb h ha hb
    rw [pairCmp_modified s sizes h]
    simp only [timeCmp, ha, hb]

/-- C6 (witness): a missing-created pair compares equal, and a fully
timestamped pair compares by its timestamps. -/
theorem C6_timestamp_eq_witness :
    (FilesSorter.mk SortBy.Created true false true).pairCmp (fun _ => none)
      (mkFile [97] false 1 none (some 4)) (mkFile [98] true 2 (some 3) none) =
      Ordering.eq ∧
    (FilesSorter.mk SortBy.Modified true false true).pairCmp (fun _ => none)
      (mkFile [97] false 1 none (some 4)) (mkFile [98] false 2 none (some 7)) =
      (FilesSorter.mk SortBy.Modified true false true).cmp cmpNat 4 7
        ((FilesSorter.mk SortBy.Modified true false true).promote
          (mkFile [97] false 1 none (some 4)) (mkFile [98] false 2 none (some 7))) :=
  ⟨(C6_timestamp_eq (FilesSorter.mk SortBy.Created true false true) (fun _ => none)
      (mkFile [97] false 1 none (some 4)) (mkFile [98] true 2 (some 3) none)).1
      rfl (Or.inl rfl),
    (C6_timestamp_eq (FilesSorter.mk SortBy.Modified true false true) (fun _ => none)
      (mkFile [97] false 1 none (some 4)) (mkFile [98] false 2 none (some 7))).2.2.2
      4 7 rfl rfl rfl⟩

/-- C7 (counterexample): the insensitive alphabetical fold is not the
full Unicode lowercase mapping.  On the identifiers "É" (U+00C9) and
"é" (U+00E9) the code's ASCII-only fold leaves both untouched and
compares them strictly (lt), while the full Unicode fold prescribed by
the claim would make them equal. -/
theorem C7_counterexample :
    (FilesSorter.mk SortBy.Alphabetical false false false).pairCmp (fun _ => none)
      (mkFile [201] false 0 none none) (mkFile [233] false 0 none none) =
      Ordering.lt ∧
    lexCmpNat ((mkFile [201] false 0 none none).url.map unicodeLower)
      ((mkFile [233] false 0 none none).url.map unicodeLower) = Ordering.eq := by
  constructor
  · decide
  · decide

/-- C7 (amended): in Alphabetical mode with case sensitivity off, the
identifiers are compared after byte-level ASCII-only lowercasing (only
the codepoints 65..90 are folded); for ASCII identifiers this agrees
with Unicode folding, e.g. "Banana" and "apple" order as
["apple", "Banana"]. -/
theorem C7_ascii_fold :
    (∀ (s : FilesSorter) (sizes : List Nat → Option Nat) (a b : File),
      s.by_ = SortBy.Alphabetical → s.sensitive = false →
      s.pairCmp sizes a b =
        s.cmp lexCmpNat (a.url.map asciiLower) (b.url.map asciiLower)
          (s.promote a b)) ∧
    ((FilesSorter.mk SortBy.Alphabetical false false false).sort
        [mkFile (strOf "Banana") false 0 none none,
         mkFile (strOf "apple") false 0 none none] (fun _ => none)).2.map File.url =
      [strOf "apple", strOf "Banana"] := by
  constructor
  · intro s sizes a b h hs
    rw [pairCmp_alpha_insensitive s sizes h hs]
  · decide

/-- C7 (witness for the amended theorem): the characterization applied
at the concrete pair ("Banana", "apple"). -/
theorem C7_ascii_fold_witness :
    (FilesSorter.mk SortBy.Alphabetical false false false).pairCmp (fun _ => none)
      (mkFile (strOf "Banana") false 0 none none)
      (mkFile (strOf "apple") false 0 none none) =
      (FilesSorter.mk SortBy.Alphabetical false false false).cmp lexCmpNat
        ((mkFile (strOf "Banana") false 0 none none).url.map asciiLower)
        ((mkFile (strOf "apple") false 0 none none).url.map asciiLower)
        ((FilesSorter.mk SortBy.Alphabetical false false false).promote
          (mkFile (strOf "Banana") false 0 none none)
          (mkFile (strOf "apple") false 0 none none)) :=
  C7_ascii_fold.1 (FilesSorter.mk SortBy.Alphabetical false false false)
    (fun _ => none) (mkFile (strOf "Banana") false 0 none none)
    (mkFile (strOf "apple") false 0 none none) rfl rfl

/-- C8: in Natural mode with reverse disabled, for either value of the
case flag (and of directories-first, all entries being files), the
identifiers ["file2", "file10", "file1"] sort to
["file1", "file2", "file10"]: digit runs compare as magnitudes. -/
theorem C8_natural_order (sens df : Bool) :
    ((FilesSorter.mk SortBy.Natural sens false df).sort
      [mkFile (strOf "file2") false 0 none none,
       mkFile (strOf "file10") false 0 none none,
       mkFile (strOf "file1") false 0 none none] (fun _ => none)).2.map File.url =
    [strOf "file1", strOf "file2", strOf "file10"] := by
  cases sens <;> cases df <;> decide

/-- C9: the natural comparator ignores skip characters (whitespace,
controls, U+200B..U+200D, U+FEFF) on both sides, in both sensitivity
modes: filtering them out of either input changes nothing; in
particular the identifiers a,U+200B,b and a,b compare equal. -/
theorem C9_skip_chars :
    (∀ l r : List Nat,
      natordCompare (l.filter (fun c => !skipB c)) (r.filter (fun c => !skipB c)) =
        natordCompare l r) ∧
    (∀ (l r : List Nat) (sens : Bool),
      natural_compare (l.filter (fun c => !skipB c)) (r.filter (fun c => !skipB c))
        sens = natural_compare l r sens) ∧
    (∀ sens : Bool, natural_compare [97, 8203, 98] [97, 98] sens = Ordering.eq) := by
  have hpred : (fun a => !skipB a && !skipB a) = fun a : Nat => !skipB a := by
    funext a
    rw [Bool.and_self]
  have hfilter : ∀ l : List Nat,
      (l.filter (fun c => !skipB c)).filter (fun c => !skipB c) =
        l.filter (fun c => !skipB c) := by
    intro l
    rw [List.filter_filter, hpred]
  refine ⟨?_, ?_, ?_⟩
  · intro l r
    unfold natordCompare
    rw [hfilter, hfilter]
  · intro l r sens
    cases sens
    · show natordCompare ((l.filter (fun c => !skipB c)).flatMap toLowerFull)
        ((r.filter (fun c => !skipB c)).flatMap toLowerFull) =
        natordCompare (l.flatMap toLowerFull) (r.flatMap toLowerFull)
      rw [flatMap_toLowerFull_filter, flatMap_toLowerFull_filter]
      unfold natordCompare
      rw [hfilter, hfilter]
    · show natordCompare (l.filter (fun c => !skipB c))
        (r.filter (fun c => !skipB c)) = natordCompare l r
      unfold natordCompare
      rw [hfilter, hfilter]
  · intro sens
    cases sens <;> decide

/-- C10: the indexing of the natural-mode permutation step is safe:
for any non-empty input (the only way sort reaches sort_naturally) the
first element exists and every sorted index is within bounds. -/
theorem C10_index_safety (s : FilesSorter) (items : List File) (hne : items ≠ []) :
    0 < items.length ∧ ∀ i ∈ s.naturalIndices items, i < items.length :=
  ⟨List.length_pos.mpr hne, naturalIndices_bounds s items⟩

/-- C10 (witness) at a concrete two-element input. -/
theorem C10_index_safety_witness :
    0 < ([mkFile [98] false 1 none none, mkFile [97] true 2 none none] : List File).length ∧
    ∀ i ∈ (FilesSorter.mk SortBy.Natural true false true).naturalIndices
        [mkFile [98] false 1 none none, mkFile [97] true 2 none none],
      i < ([mkFile [98] false 1 none none, mkFile [97] true 2 none none] : List File).length :=
  C10_index_safety (FilesSorter.mk SortBy.Natural true false true)
    [mkFile [98] false 1 none none, mkFile [97] true 2 none none]
    (List.cons_ne_nil _ _)
